import Mathlib

/-!
Verification of the Mercury PVAR (performance variable) registry,
a shallow embedding of `src/mercury_prof_pvar_impl.c` and the interface
declared in `src/mercury_prof_interface.h`.

The registry keeps all PVAR descriptors in a hash table (`pvar_table`)
keyed by `unsigned int`; keys are assigned densely at registration time
(`*key = hg_hash_table_num_entries(pvar_table)`).  We embed the hash
table as an association list of `Nat × hg_prof_pvar_data_t` pairs: the
only operations the code uses are lookup by key, insert, and the entry
count, and for those an association list with insert-or-replace
semantics is an exact model.  C pointers that may be NULL are embedded
as `Option Nat` (`none` = NULL, `some a` = the abstract address `a`);
C strings become Lean `String`s (the C code copies them with an
unchecked `strcpy` into fixed-size fields, which preserves the string
value whenever it fits).
-/

set_option autoImplicit false

namespace MercuryProf

/-- Embedding of the `hg_prof_class_t` enumeration (declared in
`mercury_prof_types.h`, outside `src/`); the taxonomy follows the MPI
PVAR class set named by the spec.  Only `HG_COUNTER` is used by the
code under `src/`. -/
inductive hg_prof_class_t where
  | HG_STATE
  | HG_LEVEL
  | HG_COUNTER
  | HG_AGGREGATE
  | HG_TIMESTAMP
  deriving DecidableEq

/-- Embedding of the `hg_prof_datatype_t` enumeration; the code under
`src/` uses `HG_UINT` and `HG_DOUBLE`. -/
inductive hg_prof_datatype_t where
  | HG_UINT
  | HG_DOUBLE
  deriving DecidableEq

/-- Embedding of the `hg_prof_bind_t` enumeration. -/
inductive hg_prof_bind_t where
  | HG_PROF_BIND_NO_OBJECT
  | HG_PROF_BIND_HANDLE
  deriving DecidableEq

/-- Embedding of `hg_return_t` restricted to the outcomes the profiling
code can produce: `HG_SUCCESS`, and `HG_INVALID_ARG` which realizes the
spec's `InvalidIndex` failure kind. -/
inductive hg_return_t where
  | HG_SUCCESS
  | HG_INVALID_ARG
  deriving DecidableEq

open hg_prof_class_t hg_prof_datatype_t hg_prof_bind_t hg_return_t

/-- Embedding of `hg_prof_pvar_data_t` (declared in
`mercury_prof_pvar_impl.h`, outside `src/`): the fields are exactly the
ones `HG_PROF_PVAR_REGISTER_impl` assigns at lines 101-108 of
`mercury_prof_pvar_impl.c`.  `addr` is a nullable pointer (`Option Nat`),
`name` and `description` are the string values the C code `strcpy`s into
the record. -/
structure hg_prof_pvar_data_t where
  pvar_class : hg_prof_class_t
  pvar_datatype : hg_prof_datatype_t
  pvar_bind : hg_prof_bind_t
  count : Int
  addr : Option Nat
  name : String
  description : String
  continuous : Int
  deriving DecidableEq

/-- Embedding of the `pvar_table` hash table state: an association list
from `unsigned int` keys to PVAR records.  (The hash-table
implementation `hg_hash_table` is repository code outside `src/`; a
key-to-value finite map is its exact observable behaviour through
`lookup` / `insert` / `num_entries`.) -/
abbrev hg_hash_table_t : Type := List (Nat × hg_prof_pvar_data_t)

/-- Embedding of `hg_hash_table_new` with `hg_prof_uint_hash` /
`hg_prof_uint_equal`: the empty table. -/
def hg_hash_table_new : hg_hash_table_t := []

/-- Embedding of `hg_hash_table_lookup`: the value stored under `key`,
or `none` (for C `HASH_TABLE_NULL`) when the key is absent. -/
def hg_hash_table_lookup (t : hg_hash_table_t) (key : Nat) :
    Option hg_prof_pvar_data_t :=
  match t with
  | [] => none
  | (k, v) :: rest =>
      if k = key then some v else hg_hash_table_lookup rest key

/-- Embedding of `hg_hash_table_num_entries`: the number of keys
present.  Insert keeps keys distinct, so this is the list length. -/
def hg_hash_table_num_entries (t : hg_hash_table_t) : Nat :=
  t.length

/-- Embedding of `hg_hash_table_insert`: stores `v` under `key`,
replacing any existing entry for that key (Mercury's hash table frees
and overwrites the previous value on key collision), and otherwise
adding a fresh entry. -/
def hg_hash_table_insert (t : hg_hash_table_t) (key : Nat)
    (v : hg_prof_pvar_data_t) : hg_hash_table_t :=
  match t with
  | [] => [(key, v)]
  | (k, w) :: rest =>
      if k = key then (key, v) :: rest
      else (k, w) :: hg_hash_table_insert rest key v

/-- Embedding of `hg_prof_pvar_table_lookup`
(`mercury_prof_pvar_impl.c` lines 45-49). -/
def hg_prof_pvar_table_lookup (t : hg_hash_table_t) (key : Nat) :
    Option hg_prof_pvar_data_t :=
  hg_hash_table_lookup t key

/-- Embedding of the scan loop shared verbatim by
`hg_prof_get_pvar_addr_from_name` (lines 57-63) and
`hg_prof_get_pvar_index_from_name` (lines 78-85): iterate `i` upward
over `[0, num_entries)`, look the key up, and stop at the first entry
whose `name` field equals `name`, yielding the loop variables
`(i, value)` at the break; `none` models `value == NULL` after the
loop.  (When a key in range is absent from the table, the C code would
dereference NULL; that state is unreachable through the registration
API, and the model continues the scan there.) -/
def pvar_scan_aux (t : hg_hash_table_t) (name : String) :
    Nat → Nat → Option (Nat × hg_prof_pvar_data_t)
  | _, 0 => none
  | i, fuel + 1 =>
      match hg_hash_table_lookup t i with
      | some value =>
          if value.name = name then some (i, value)
          else pvar_scan_aux t name (i + 1) fuel
      | none => pvar_scan_aux t name (i + 1) fuel

/-- The scan loop started at index `i`; the remaining iteration count
`num_entries - i` realizes the loop guard `i < num_entries`. -/
def pvar_scan_from (t : hg_hash_table_t) (name : String) (i : Nat) :
    Option (Nat × hg_prof_pvar_data_t) :=
  pvar_scan_aux t name i (hg_hash_table_num_entries t - i)

/-- Embedding of `hg_prof_get_pvar_addr_from_name`
(`mercury_prof_pvar_impl.c` lines 51-70): scan for the first
name match and return `value->addr` (a possibly-NULL pointer), or NULL
when no entry matched. -/
def hg_prof_get_pvar_addr_from_name (t : hg_hash_table_t)
    (name : String) : Option Nat :=
  match pvar_scan_from t name 0 with
  | some (_, value) => value.addr
  | none => none

/-- Embedding of `hg_prof_get_pvar_index_from_name`
(`mercury_prof_pvar_impl.c` lines 72-88): scan for the first name
match and return its key as a C `int`, or `-1` when no entry
matched. -/
def hg_prof_get_pvar_index_from_name (t : hg_hash_table_t)
    (name : String) : Int :=
  match pvar_scan_from t name 0 with
  | some (i, _) => (i : Int)
  | none => -1

/-- Embedding of `HG_PROF_PVAR_REGISTER_impl`
(`mercury_prof_pvar_impl.c` lines 91-111): allocate a fresh key equal
to the current entry count, build the descriptor record from the
arguments, and insert it.  The C function mutates the global table;
here it returns the new table. -/
def HG_PROF_PVAR_REGISTER_impl (t : hg_hash_table_t)
    (varclass : hg_prof_class_t) (dtype : hg_prof_datatype_t)
    (name : String) (addr : Option Nat) (count : Int)
    (bind : hg_prof_bind_t) (continuous : Int) (desc : String) :
    hg_hash_table_t :=
  let key : Nat := hg_hash_table_num_entries t
  let pvar_info : hg_prof_pvar_data_t :=
    { pvar_class := varclass
      pvar_datatype := dtype
      pvar_bind := bind
      count := count
      addr := addr
      name := name
      description := desc
      continuous := continuous }
  hg_hash_table_insert t key pvar_info

/-- Argument bundle for one registration call, mirroring the parameter
list of `HG_PROF_PVAR_REGISTER_impl`. -/
structure RegArgs where
  varclass : hg_prof_class_t
  dtype : hg_prof_datatype_t
  name : String
  addr : Option Nat
  count : Int
  bind : hg_prof_bind_t
  continuous : Int
  desc : String
  deriving DecidableEq

/-- Registration of one argument bundle. -/
def registerOne (t : hg_hash_table_t) (a : RegArgs) : hg_hash_table_t :=
  HG_PROF_PVAR_REGISTER_impl t a.varclass a.dtype a.name a.addr a.count
    a.bind a.continuous a.desc

/-- The descriptor record a registration with arguments `a` builds. -/
def mkPvar (a : RegArgs) : hg_prof_pvar_data_t :=
  { pvar_class := a.varclass
    pvar_datatype := a.dtype
    pvar_bind := a.bind
    count := a.count
    addr := a.addr
    name := a.name
    description := a.desc
    continuous := a.continuous }

/-- The table reached from the empty table by a sequence of
registrations; registration is the only operation that mutates the
table before teardown. -/
def registerAll (rs : List RegArgs) : hg_hash_table_t :=
  rs.foldl registerOne hg_hash_table_new

/-- Modelled from the spec: the macro
`HG_PROF_PVAR_UINT_COUNTER_REGISTER` is defined in
`mercury_prof_pvar_impl.h`, which is not under `src/`.  Per the spec
(§2 Counter Storage, §4.4, glossary), it declares the unsigned-integer
counter storage for the named built-in PVAR and registers a continuous
counter-class descriptor referencing it: class `HG_COUNTER`, the given
datatype and binding, the storage variable's token as the name, the
address of the producer-owned storage, the given element count,
continuous (encoded 1), and the given description. -/
def HG_PROF_PVAR_UINT_COUNTER_REGISTER (t : hg_hash_table_t)
    (dtype : hg_prof_datatype_t) (bind : hg_prof_bind_t) (name : String)
    (addr : Option Nat) (desc : String) (count : Int) : hg_hash_table_t :=
  HG_PROF_PVAR_REGISTER_impl t HG_COUNTER dtype name addr count bind 1 desc

/-- Modelled from the spec: the macro
`HG_PROF_PVAR_DOUBLE_COUNTER_REGISTER` (also from
`mercury_prof_pvar_impl.h`, not under `src/`), identical to the
unsigned-integer variant but declaring double-valued accumulator
storage. -/
def HG_PROF_PVAR_DOUBLE_COUNTER_REGISTER (t : hg_hash_table_t)
    (dtype : hg_prof_datatype_t) (bind : hg_prof_bind_t) (name : String)
    (addr : Option Nat) (desc : String) (count : Int) : hg_hash_table_t :=
  HG_PROF_PVAR_REGISTER_impl t HG_COUNTER dtype name addr count bind 1 desc

/-- The fixed built-in PVAR catalog registered by `hg_prof_pvar_init`
(`mercury_prof_pvar_impl.c` lines 120-131), in registration order.  The
`addr` values stand for the distinct non-NULL addresses of the
producer-owned storage variables declared by the registration macros. -/
def builtinPvarCatalog : List RegArgs :=
  [ { varclass := HG_COUNTER, dtype := HG_UINT, name := "hg_pvar_num_posted_handles",
      addr := some 1, count := 256, bind := HG_PROF_BIND_NO_OBJECT, continuous := 1,
      desc := "Number of posted handles" }
  , { varclass := HG_COUNTER, dtype := HG_UINT, name := "hg_pvar_hg_backfill_queue_count",
      addr := some 2, count := 0, bind := HG_PROF_BIND_NO_OBJECT, continuous := 1,
      desc := "Backfill queue size" }
  , { varclass := HG_COUNTER, dtype := HG_UINT, name := "hg_pvar_hg_completion_queue_count",
      addr := some 3, count := 0, bind := HG_PROF_BIND_NO_OBJECT, continuous := 1,
      desc := "Completion queue size" }
  , { varclass := HG_COUNTER, dtype := HG_UINT, name := "hg_pvar_hg_na_ofi_completion_count",
      addr := some 4, count := 0, bind := HG_PROF_BIND_NO_OBJECT, continuous := 1,
      desc := "Number of actual events during a fi_cq_read operation" }
  , { varclass := HG_COUNTER, dtype := HG_UINT, name := "hg_pvar_hg_forward_count",
      addr := some 5, count := 0, bind := HG_PROF_BIND_NO_OBJECT, continuous := 1,
      desc := "Number of times HG_Forward has been invoked" }
  , { varclass := HG_COUNTER, dtype := HG_DOUBLE, name := "hg_pvar_hg_origin_callback_completion_time",
      addr := some 6, count := 0, bind := HG_PROF_BIND_HANDLE, continuous := 1,
      desc := "Time taken for origin to trigger callback(s)" }
  , { varclass := HG_COUNTER, dtype := HG_DOUBLE, name := "hg_pvar_hg_internal_rdma_transfer_time",
      addr := some 7, count := 0, bind := HG_PROF_BIND_HANDLE, continuous := 1,
      desc := "Time taken for internal RDMA transfer(s)" }
  , { varclass := HG_COUNTER, dtype := HG_UINT, name := "hg_pvar_hg_internal_rdma_transfer_size",
      addr := some 8, count := 0, bind := HG_PROF_BIND_HANDLE, continuous := 1,
      desc := "Size of internal RDMA transfer (bytes)" }
  , { varclass := HG_COUNTER, dtype := HG_DOUBLE, name := "hg_pvar_hg_input_serial_time",
      addr := some 9, count := 0, bind := HG_PROF_BIND_HANDLE, continuous := 1,
      desc := "Time taken to serialize input (s)" }
  , { varclass := HG_COUNTER, dtype := HG_DOUBLE, name := "hg_pvar_hg_input_deserial_time",
      addr := some 10, count := 0, bind := HG_PROF_BIND_HANDLE, continuous := 1,
      desc := "Time taken to de-serialize input (s)" }
  , { varclass := HG_COUNTER, dtype := HG_DOUBLE, name := "hg_pvar_hg_output_deserial_time",
      addr := some 11, count := 0, bind := HG_PROF_BIND_HANDLE, continuous := 1,
      desc := "Time taken to de-serialize output (s)" }
  , { varclass := HG_COUNTER, dtype := HG_DOUBLE, name := "hg_pvar_hg_output_serial_time",
      addr := some 12, count := 0, bind := HG_PROF_BIND_HANDLE, continuous := 1,
      desc := "Time taken to serialize output (s)" } ]

/-- Embedding of `hg_prof_pvar_init` (`mercury_prof_pvar_impl.c`
lines 113-134): create the empty table, register the twelve built-in
PVARs via the registration macros in source order, and return
`HG_SUCCESS`.  The C function installs the table in the global
`pvar_table`; here it returns the pair (return code, table). -/
def hg_prof_pvar_init : hg_return_t × hg_hash_table_t :=
  let t := hg_hash_table_new
  let t := HG_PROF_PVAR_UINT_COUNTER_REGISTER t HG_UINT HG_PROF_BIND_NO_OBJECT
    "hg_pvar_num_posted_handles" (some 1) "Number of posted handles" 256
  let t := HG_PROF_PVAR_UINT_COUNTER_REGISTER t HG_UINT HG_PROF_BIND_NO_OBJECT
    "hg_pvar_hg_backfill_queue_count" (some 2) "Backfill queue size" 0
  let t := HG_PROF_PVAR_UINT_COUNTER_REGISTER t HG_UINT HG_PROF_BIND_NO_OBJECT
    "hg_pvar_hg_completion_queue_count" (some 3) "Completion queue size" 0
  let t := HG_PROF_PVAR_UINT_COUNTER_REGISTER t HG_UINT HG_PROF_BIND_NO_OBJECT
    "hg_pvar_hg_na_ofi_completion_count" (some 4)
    "Number of actual events during a fi_cq_read operation" 0
  let t := HG_PROF_PVAR_UINT_COUNTER_REGISTER t HG_UINT HG_PROF_BIND_NO_OBJECT
    "hg_pvar_hg_forward_count" (some 5)
    "Number of times HG_Forward has been invoked" 0
  let t := HG_PROF_PVAR_DOUBLE_COUNTER_REGISTER t HG_DOUBLE HG_PROF_BIND_HANDLE
    "hg_pvar_hg_origin_callback_completion_time" (some 6)
    "Time taken for origin to trigger callback(s)" 0
  let t := HG_PROF_PVAR_DOUBLE_COUNTER_REGISTER t HG_DOUBLE HG_PROF_BIND_HANDLE
    "hg_pvar_hg_internal_rdma_transfer_time" (some 7)
    "Time taken for internal RDMA transfer(s)" 0
  let t := HG_PROF_PVAR_UINT_COUNTER_REGISTER t HG_UINT HG_PROF_BIND_HANDLE
    "hg_pvar_hg_internal_rdma_transfer_size" (some 8)
    "Size of internal RDMA transfer (bytes)" 0
  let t := HG_PROF_PVAR_DOUBLE_COUNTER_REGISTER t HG_DOUBLE HG_PROF_BIND_HANDLE
    "hg_pvar_hg_input_serial_time" (some 9)
    "Time taken to serialize input (s)" 0
  let t := HG_PROF_PVAR_DOUBLE_COUNTER_REGISTER t HG_DOUBLE HG_PROF_BIND_HANDLE
    "hg_pvar_hg_input_deserial_time" (some 10)
    "Time taken to de-serialize input (s)" 0
  let t := HG_PROF_PVAR_DOUBLE_COUNTER_REGISTER t HG_DOUBLE HG_PROF_BIND_HANDLE
    "hg_pvar_hg_output_deserial_time" (some 11)
    "Time taken to de-serialize output (s)" 0
  let t := HG_PROF_PVAR_DOUBLE_COUNTER_REGISTER t HG_DOUBLE HG_PROF_BIND_HANDLE
    "hg_pvar_hg_output_serial_time" (some 12)
    "Time taken to serialize output (s)" 0
  (HG_SUCCESS, t)

/-- Caller-supplied output buffers of `HG_Prof_pvar_get_info`
(`mercury_prof_interface.h` lines 105-108): name and description
string buffers, their length out-parameters, and the class, datatype,
binding and continuity out-parameters. -/
structure InfoBufs where
  name : String
  name_len : Int
  var_class : hg_prof_class_t
  datatype : hg_prof_datatype_t
  desc : String
  desc_len : Int
  bind : hg_prof_bind_t
  continuous : Int
  deriving DecidableEq

/-- Modelled from the spec: the implementation of
`HG_Prof_pvar_get_info` (declared at `mercury_prof_interface.h`
lines 105-108) is not under `src/`.  Per the spec (§4.1, §7): it fails
with `InvalidIndex` (realized as `HG_INVALID_ARG`) when `pvar_index`
is outside `[0, count)`, leaving the caller-supplied output buffers
untouched (no partial mutation on failure), and otherwise writes all
public metadata fields of the descriptor at that index into the
buffers and returns `HG_SUCCESS`. -/
def HG_Prof_pvar_get_info (t : hg_hash_table_t) (pvar_index : Int)
    (bufs : InfoBufs) : hg_return_t × InfoBufs :=
  if 0 ≤ pvar_index ∧ pvar_index < (hg_hash_table_num_entries t : Int) then
    match hg_prof_pvar_table_lookup t pvar_index.toNat with
    | some v =>
        (HG_SUCCESS,
          { name := v.name
            name_len := (v.name.length : Int)
            var_class := v.pvar_class
            datatype := v.pvar_datatype
            desc := v.description
            desc_len := (v.description.length : Int)
            bind := v.pvar_bind
            continuous := v.continuous })
    | none => (HG_INVALID_ARG, bufs)
  else
    (HG_INVALID_ARG, bufs)

/-! Specification-level helpers used to reason about tables reached by
registration sequences. -/

/-- The table whose entries are the records of `l`, keyed consecutively
from `i`. -/
def enumFrom (i : Nat) : List hg_prof_pvar_data_t → hg_hash_table_t
  | [] => []
  | v :: l => (i, v) :: enumFrom (i + 1) l

/-- The table whose entry under each key `k` is the `k`-th record of
`l`. -/
def tableOf (l : List hg_prof_pvar_data_t) : hg_hash_table_t :=
  enumFrom 0 l

/-- The first record of `l` whose `name` field is `n`, together with
its position. -/
def findName (n : String) : List hg_prof_pvar_data_t →
    Option (Nat × hg_prof_pvar_data_t)
  | [] => none
  | v :: l =>
      if v.name = n then some (0, v)
      else (findName n l).map (fun p => (p.1 + 1, p.2))

/-- Sample registration argument bundle used to evaluate the theorems
on concrete inputs. -/
def sampleArgs1 : RegArgs :=
  { varclass := HG_COUNTER, dtype := HG_UINT, name := "alpha",
    addr := some 100, count := 1, bind := HG_PROF_BIND_NO_OBJECT,
    continuous := 1, desc := "first sample" }

/-- Second sample registration argument bundle, with a different name
and storage address. -/
def sampleArgs2 : RegArgs :=
  { varclass := HG_COUNTER, dtype := HG_DOUBLE, name := "beta",
    addr := some 200, count := 2, bind := HG_PROF_BIND_HANDLE,
    continuous := 0, desc := "second sample" }

/-- Registration argument bundle carrying the same name as
`sampleArgs1` but different storage and description, used to exercise
duplicate-name registration. -/
def dupArgs : RegArgs :=
  { varclass := HG_COUNTER, dtype := HG_UINT, name := "alpha",
    addr := some 300, count := 1, bind := HG_PROF_BIND_NO_OBJECT,
    continuous := 1, desc := "duplicate of the first sample" }

/-- Registration argument bundle whose storage reference is the NULL
pointer (the C signature `void *addr` admits it). -/
def nullAddrArgs : RegArgs :=
  { varclass := HG_COUNTER, dtype := HG_UINT, name := "x",
    addr := none, count := 1, bind := HG_PROF_BIND_NO_OBJECT,
    continuous := 1, desc := "d" }

/-- Sample caller-supplied output buffers, as handed to
`HG_Prof_pvar_get_info` before any write. -/
def sampleBufs : InfoBufs :=
  { name := "", name_len := 0, var_class := HG_STATE,
    datatype := HG_UINT, desc := "", desc_len := 0,
    bind := HG_PROF_BIND_NO_OBJECT, continuous := 0 }

/-! Structural lemmas: a table reached by a registration sequence is
exactly the consecutively keyed table of the registered records. -/

theorem length_enumFrom (i : Nat) (l : List hg_prof_pvar_data_t) :
    (enumFrom i l).length = l.length := by
  induction l generalizing i with
  | nil => rfl
  | cons v l ih => simpa [enumFrom] using ih (i + 1)

theorem num_entries_tableOf (l : List hg_prof_pvar_data_t) :
    hg_hash_table_num_entries (tableOf l) = l.length := by
  simpa [hg_hash_table_num_entries, tableOf] using length_enumFrom 0 l

theorem lookup_enumFrom (l : List hg_prof_pvar_data_t) (i j : Nat) :
    hg_hash_table_lookup (enumFrom i l) (i + j) = l.get? j := by
  induction l generalizing i j with
  | nil => rfl
  | cons v l ih =>
      cases j with
      | zero => simp [enumFrom, hg_hash_table_lookup]
      | succ j =>
          rw [enumFrom, hg_hash_table_lookup, if_neg (by omega)]
          have harith : i + (j + 1) = (i + 1) + j := by omega
          rw [harith, ih (i + 1) j]
          rfl

theorem lookup_tableOf (l : List hg_prof_pvar_data_t) (k : Nat) :
    hg_hash_table_lookup (tableOf l) k = l.get? k := by
  simpa [tableOf] using lookup_enumFrom l 0 k

theorem insert_enumFrom (l : List hg_prof_pvar_data_t) (i k : Nat)
    (v : hg_prof_pvar_data_t) (h : i + l.length ≤ k) :
    hg_hash_table_insert (enumFrom i l) k v = enumFrom i l ++ [(k, v)] := by
  induction l generalizing i with
  | nil => rfl
  | cons w l ih =>
      rw [enumFrom, hg_hash_table_insert, if_neg (by simp at h; omega)]
      rw [ih (i + 1) (by simp at h ⊢; omega)]
      rfl

theorem enumFrom_append_last (l : List hg_prof_pvar_data_t) (i : Nat)
    (v : hg_prof_pvar_data_t) :
    enumFrom i (l ++ [v]) = enumFrom i l ++ [(i + l.length, v)] := by
  induction l generalizing i with
  | nil => simp [enumFrom]
  | cons w l ih =>
      rw [List.cons_append, enumFrom, enumFrom, ih (i + 1), List.cons_append]
      have harith : i + 1 + l.length = i + (w :: l).length := by
        simp; omega
      rw [harith]

theorem registerOne_eq_insert (t : hg_hash_table_t) (a : RegArgs) :
    registerOne t a =
      hg_hash_table_insert t (hg_hash_table_num_entries t) (mkPvar a) :=
  rfl

theorem registerOne_tableOf (l : List hg_prof_pvar_data_t) (a : RegArgs) :
    registerOne (tableOf l) a = tableOf (l ++ [mkPvar a]) := by
  rw [registerOne_eq_insert, num_entries_tableOf, tableOf, tableOf,
    insert_enumFrom l 0 l.length (mkPvar a) (by omega),
    enumFrom_append_last]
  simp

theorem foldl_registerOne_tableOf (rs : List RegArgs) :
    ∀ l : List hg_prof_pvar_data_t,
      rs.foldl registerOne (tableOf l) = tableOf (l ++ rs.map mkPvar) := by
  induction rs with
  | nil => intro l; simp
  | cons a rs ih =>
      intro l
      rw [List.foldl_cons, registerOne_tableOf, ih]
      simp

theorem registerAll_eq (rs : List RegArgs) :
    registerAll rs = tableOf (rs.map mkPvar) := by
  simpa [registerAll, hg_hash_table_new, tableOf, enumFrom] using
    foldl_registerOne_tableOf rs []

theorem num_entries_registerAll (rs : List RegArgs) :
    hg_hash_table_num_entries (registerAll rs) = rs.length := by
  rw [registerAll_eq, num_entries_tableOf, List.length_map]

theorem lookup_registerAll (rs : List RegArgs) (k : Nat) :
    hg_prof_pvar_table_lookup (registerAll rs) k = (rs.map mkPvar).get? k := by
  rw [hg_prof_pvar_table_lookup, registerAll_eq, lookup_tableOf]

/-! Characterization of the by-name scan loop over a table of
consecutively keyed records. -/

theorem pvar_scan_aux_tableOf (l : List hg_prof_pvar_data_t) (n : String) :
    ∀ fuel i, fuel = l.length - i →
      pvar_scan_aux (tableOf l) n i fuel =
        (findName n (l.drop i)).map (fun p => (i + p.1, p.2)) := by
  intro fuel
  induction fuel with
  | zero =>
      intro i h
      have hle : l.length ≤ i := by omega
      rw [List.drop_eq_nil_of_le hle]
      rfl
  | succ fuel ih =>
      intro i h
      have hi : i < l.length := by omega
      rw [pvar_scan_aux, lookup_tableOf, List.get?_eq_get hi,
        List.drop_eq_get_cons hi, findName]
      dsimp only
      by_cases hname : (l.get ⟨i, hi⟩).name = n
      · rw [if_pos hname, if_pos hname]
        simp
      · rw [if_neg hname, if_neg hname, ih (i + 1) (by omega)]
        cases hf : findName n (l.drop (i + 1)) with
        | none => simp
        | some p => simp; omega

theorem pvar_scan_from_tableOf (l : List hg_prof_pvar_data_t) (n : String) :
    pvar_scan_from (tableOf l) n 0 = findName n l := by
  rw [pvar_scan_from, num_entries_tableOf,
    pvar_scan_aux_tableOf l n (l.length - 0) 0 rfl]
  simp

/-! Lemmas about `findName`. -/

theorem findName_eq_none_iff (n : String) (l : List hg_prof_pvar_data_t) :
    findName n l = none ↔
      ∀ j v, l.get? j = some v → v.name ≠ n := by
  induction l with
  | nil => simp [findName]
  | cons u l ih =>
      rw [findName]
      by_cases hu : u.name = n
      · rw [if_pos hu]
        constructor
        · intro hcontra; exact absurd hcontra (by simp)
        · intro hall
          exact absurd hu (hall 0 u rfl)
      · rw [if_neg hu]
        constructor
        · intro hnone j v hj
          cases j with
          | zero =>
              cases hj
              exact hu
          | succ j =>
              have hl : findName n l = none := by
                cases hfind : findName n l with
                | none => rfl
                | some p => rw [hfind] at hnone; exact absurd hnone (by simp)
              exact (ih.mp hl) j v hj
        · intro hall
          have hl : findName n l = none :=
            ih.mpr (fun j v hj => hall (j + 1) v hj)
          rw [hl]
          rfl

theorem findName_eq_some (n : String) (l : List hg_prof_pvar_data_t)
    (j : Nat) (v : hg_prof_pvar_data_t) (h : findName n l = some (j, v)) :
    l.get? j = some v ∧ v.name = n ∧
      ∀ k, k < j → ∀ w, l.get? k = some w → w.name ≠ n := by
  induction l generalizing j v with
  | nil => exact absurd h (by simp [findName])
  | cons u l ih =>
      rw [findName] at h
      by_cases hu : u.name = n
      · rw [if_pos hu] at h
        cases h
        exact ⟨rfl, hu, fun k hk => absurd hk (by omega)⟩
      · rw [if_neg hu] at h
        cases hfind : findName n l with
        | none => rw [hfind] at h; exact absurd h (by simp)
        | some p =>
            rw [hfind] at h
            rw [Option.map_some'] at h
            cases h
            obtain ⟨hget, hname, hmin⟩ := ih p.1 p.2 (by rw [hfind])
            refine ⟨hget, hname, ?_⟩
            intro k hk w hw
            cases k with
            | zero =>
                cases hw
                exact hu
            | succ k =>
                exact hmin k (by omega) w hw

theorem findName_append_of_some (n : String)
    (l₁ l₂ : List hg_prof_pvar_data_t) (p : Nat × hg_prof_pvar_data_t)
    (h : findName n l₁ = some p) : findName n (l₁ ++ l₂) = some p := by
  induction l₁ generalizing p with
  | nil => exact absurd h (by simp [findName])
  | cons u l ih =>
      rw [findName] at h
      rw [List.cons_append, findName]
      by_cases hu : u.name = n
      · rw [if_pos hu] at h ⊢
        exact h
      · rw [if_neg hu] at h ⊢
        obtain ⟨q, hq, hshift⟩ := Option.map_eq_some'.mp h
        rw [ih q hq]
        simpa using hshift

/-! Bridge lemmas from the registry operations to `findName`. -/

theorem natCast_ne_neg_one (j : Nat) : (j : Int) ≠ -1 := by
  intro h
  have h0 : (0 : Int) ≤ (j : Int) := Int.natCast_nonneg j
  rw [h] at h0
  norm_num at h0

theorem lookup_insert_self (t : hg_hash_table_t) (k : Nat)
    (v : hg_prof_pvar_data_t) :
    hg_hash_table_lookup (hg_hash_table_insert t k v) k = some v := by
  induction t with
  | nil => simp [hg_hash_table_insert, hg_hash_table_lookup]
  | cons p t ih =>
      obtain ⟨kp, w⟩ := p
      rw [hg_hash_table_insert]
      by_cases hk : kp = k
      · rw [if_pos hk, hg_hash_table_lookup, if_pos rfl]
      · rw [if_neg hk, hg_hash_table_lookup, if_neg hk]
        exact ih

theorem registerOne_registerAll (rs : List RegArgs) (a : RegArgs) :
    registerOne (registerAll rs) a = registerAll (rs ++ [a]) := by
  rw [registerAll, registerAll, List.foldl_append]
  rfl

theorem index_from_name_eq_match (rs : List RegArgs) (n : String) :
    hg_prof_get_pvar_index_from_name (registerAll rs) n =
      match findName n (rs.map mkPvar) with
      | some p => (p.1 : Int)
      | none => -1 := by
  rw [hg_prof_get_pvar_index_from_name, registerAll_eq, pvar_scan_from_tableOf]
  cases findName n (rs.map mkPvar) with
  | none => rfl
  | some p => rfl

theorem addr_from_name_eq_match (rs : List RegArgs) (n : String) :
    hg_prof_get_pvar_addr_from_name (registerAll rs) n =
      match findName n (rs.map mkPvar) with
      | some p => p.2.addr
      | none => none := by
  rw [hg_prof_get_pvar_addr_from_name, registerAll_eq, pvar_scan_from_tableOf]
  cases findName n (rs.map mkPvar) with
  | none => rfl
  | some p => rfl

/-! Claim theorems. -/

/-- C1: For every successful registration of a PVAR descriptor (here:
any registration performed on a table reached by a prior sequence of
registrations), the index assigned to the new descriptor — the key the
descriptor is stored under, and under which it is found afterwards —
equals the number of descriptors registered before the call, and the
registered-descriptor count afterwards is exactly one greater than
before. -/
theorem C1_register_assigns_next_index (rs : List RegArgs) (a : RegArgs) :
    hg_hash_table_num_entries (registerOne (registerAll rs) a) =
        hg_hash_table_num_entries (registerAll rs) + 1 ∧
    hg_prof_pvar_table_lookup (registerOne (registerAll rs) a)
        (hg_hash_table_num_entries (registerAll rs)) = some (mkPvar a) := by
  rw [registerOne_registerAll, num_entries_registerAll, num_entries_registerAll,
    lookup_registerAll]
  constructor
  · simp
  · rw [List.map_append]
    have hlen : (rs.map mkPvar).length = rs.length := List.length_map rs mkPvar
    rw [← hlen]
    exact List.get?_concat_length (rs.map mkPvar) (mkPvar a)

/-- C3: After any sequence of registrations from the empty table (the
only mutating operation before teardown), the set of descriptor
indices present in the store is exactly the contiguous range `[0, N)`
where `N` is the number of registrations performed. -/
theorem C3_indices_contiguous (rs : List RegArgs) (k : Nat) :
    (hg_prof_pvar_table_lookup (registerAll rs) k).isSome ↔ k < rs.length := by
  rw [lookup_registerAll]
  constructor
  · intro h
    obtain ⟨v, hv⟩ := Option.isSome_iff_exists.mp h
    obtain ⟨hlt, _⟩ := List.get?_eq_some.mp hv
    simpa using hlt
  · intro h
    have hlt : k < (rs.map mkPvar).length := by simpa using h
    rw [List.get?_eq_get hlt]
    rfl

/-- C4: Registering a new PVAR descriptor leaves every previously
registered descriptor unchanged: for every index `i` below the count
before the registration, looking up `i` afterwards returns the same
descriptor record as before. -/
theorem C4_register_preserves_existing (rs : List RegArgs) (a : RegArgs)
    (i : Nat) (h : i < hg_hash_table_num_entries (registerAll rs)) :
    hg_prof_pvar_table_lookup (registerOne (registerAll rs) a) i =
      hg_prof_pvar_table_lookup (registerAll rs) i := by
  rw [registerOne_registerAll, lookup_registerAll, lookup_registerAll,
    List.map_append]
  rw [num_entries_registerAll] at h
  exact List.get?_append (by simpa using h)

/-- C4 witness: the frame property evaluated at a concrete prior table
of one descriptor and a concrete second registration. -/
theorem C4_register_preserves_existing_witness :
    hg_prof_pvar_table_lookup (registerOne (registerAll [sampleArgs1]) sampleArgs2) 0 =
      hg_prof_pvar_table_lookup (registerAll [sampleArgs1]) 0 :=
  C4_register_preserves_existing [sampleArgs1] sampleArgs2 0 (by decide)

/-- C9: Registration round-trip: after registering a descriptor with
given class, datatype, name, storage reference, element count, bind,
continuous flag and description on any table, looking up the index
assigned by that registration returns a record whose fields equal
exactly the supplied values. -/
theorem C9_register_roundtrip (t : hg_hash_table_t)
    (varclass : hg_prof_class_t) (dtype : hg_prof_datatype_t)
    (name : String) (addr : Option Nat) (count : Int)
    (bind : hg_prof_bind_t) (continuous : Int) (desc : String) :
    hg_prof_pvar_table_lookup
        (HG_PROF_PVAR_REGISTER_impl t varclass dtype name addr count bind
          continuous desc)
        (hg_hash_table_num_entries t) =
      some { pvar_class := varclass, pvar_datatype := dtype,
             pvar_bind := bind, count := count, addr := addr,
             name := name, description := desc,
             continuous := continuous } :=
  lookup_insert_self t (hg_hash_table_num_entries t) _

/-- C2: For every name `n`, the by-name index lookup over a table
reached by a registration sequence returns the lowest index `i` in
`[0, count)` whose registered descriptor has name `n`, and returns the
NotFound value `-1` exactly when no registered descriptor has name
`n`; the result is always either `-1` or such a natural index. -/
theorem C2_find_by_name_lowest_index (rs : List RegArgs) (n : String) :
    (hg_prof_get_pvar_index_from_name (registerAll rs) n = -1 ↔
      ∀ i : Nat, i < hg_hash_table_num_entries (registerAll rs) →
        ∀ v, hg_prof_pvar_table_lookup (registerAll rs) i = some v →
          v.name ≠ n)
    ∧ (∀ i : Nat,
        hg_prof_get_pvar_index_from_name (registerAll rs) n = (i : Int) →
          i < hg_hash_table_num_entries (registerAll rs) ∧
          (∃ v, hg_prof_pvar_table_lookup (registerAll rs) i = some v ∧
            v.name = n) ∧
          ∀ j : Nat, j < i →
            ∀ v, hg_prof_pvar_table_lookup (registerAll rs) j = some v →
              v.name ≠ n)
    ∧ (hg_prof_get_pvar_index_from_name (registerAll rs) n = -1 ∨
        ∃ i : Nat,
          hg_prof_get_pvar_index_from_name (registerAll rs) n = (i : Int)) := by
  rw [index_from_name_eq_match, num_entries_registerAll]
  simp only [lookup_registerAll]
  cases hf : findName n (rs.map mkPvar) with
  | none =>
      dsimp only
      refine ⟨?_, ?_, Or.inl rfl⟩
      · constructor
        · intro _ i hi v hv
          exact (findName_eq_none_iff n (rs.map mkPvar)).mp hf i v hv
        · intro _
          rfl
      · intro i hi
        exact absurd hi (by omega)
  | some p =>
      obtain ⟨j, v⟩ := p
      obtain ⟨hget, hname, hmin⟩ := findName_eq_some n (rs.map mkPvar) j v hf
      obtain ⟨hlt, _⟩ := List.get?_eq_some.mp hget
      dsimp only
      refine ⟨?_, ?_, Or.inr ⟨j, rfl⟩⟩
      · constructor
        · intro habs
          exact absurd habs (by omega)
        · intro hall
          exact absurd hname (hall j (by simpa using hlt) v hget)
      · intro i hi
        have hj : j = i := by omega
        subst hj
        exact ⟨by simpa using hlt, ⟨v, hget, hname⟩, hmin⟩

/-- C2 witness: the characterization evaluated on a concrete two-entry
table, at the name of its first descriptor. -/
theorem C2_find_by_name_lowest_index_witness :
    0 < hg_hash_table_num_entries (registerAll [sampleArgs1, sampleArgs2]) ∧
    (∃ v, hg_prof_pvar_table_lookup (registerAll [sampleArgs1, sampleArgs2]) 0 =
        some v ∧ v.name = "alpha") ∧
    ∀ j : Nat, j < 0 →
      ∀ v, hg_prof_pvar_table_lookup (registerAll [sampleArgs1, sampleArgs2]) j =
          some v → v.name ≠ "alpha" :=
  (C2_find_by_name_lowest_index [sampleArgs1, sampleArgs2] "alpha").2.1 0 (by decide)

/-- C5: Registering a descriptor whose name equals the name of an
already-registered descriptor succeeds (the count grows by one), and a
subsequent by-name lookup of that name still returns the index of the
earlier, lower-index registration. -/
theorem C5_duplicate_names_first_wins (rs : List RegArgs) (b : RegArgs)
    (i : Nat)
    (h : hg_prof_get_pvar_index_from_name (registerAll rs) b.name = (i : Int)) :
    hg_hash_table_num_entries (registerOne (registerAll rs) b) =
        hg_hash_table_num_entries (registerAll rs) + 1 ∧
    i < hg_hash_table_num_entries (registerAll rs) ∧
    hg_prof_get_pvar_index_from_name (registerOne (registerAll rs) b) b.name =
      (i : Int) := by
  rw [index_from_name_eq_match] at h
  refine ⟨?_, ?_, ?_⟩
  · rw [registerOne_registerAll, num_entries_registerAll, num_entries_registerAll]
    simp
  · cases hf : findName b.name (rs.map mkPvar) with
    | none =>
        rw [hf] at h
        dsimp only at h
        exact absurd h (by omega)
    | some p =>
        rw [hf] at h
        obtain ⟨j, v⟩ := p
        obtain ⟨hget, _, _⟩ := findName_eq_some b.name (rs.map mkPvar) j v hf
        obtain ⟨hlt, _⟩ := List.get?_eq_some.mp hget
        rw [num_entries_registerAll]
        dsimp only at h
        have hj : j = i := by omega
        subst hj
        simpa using hlt
  · rw [registerOne_registerAll, index_from_name_eq_match, List.map_append]
    simp only [List.map_cons, List.map_nil]
    cases hf : findName b.name (rs.map mkPvar) with
    | none =>
        rw [hf] at h
        dsimp only at h
        exact absurd h (by omega)
    | some p =>
        rw [hf] at h
        rw [findName_append_of_some b.name (rs.map mkPvar) [mkPvar b] p hf]
        exact h

/-- C5 witness: registering a second descriptor named `alpha` on a
table that already holds one succeeds and leaves the by-name lookup at
index 0. -/
theorem C5_duplicate_names_first_wins_witness :
    hg_hash_table_num_entries (registerOne (registerAll [sampleArgs1]) dupArgs) =
        hg_hash_table_num_entries (registerAll [sampleArgs1]) + 1 ∧
    0 < hg_hash_table_num_entries (registerAll [sampleArgs1]) ∧
    hg_prof_get_pvar_index_from_name (registerOne (registerAll [sampleArgs1]) dupArgs)
        dupArgs.name = ((0 : Nat) : Int) :=
  C5_duplicate_names_first_wins [sampleArgs1] dupArgs 0 (by decide)

/-- C10 counterexample: on the table holding one descriptor named `x`
registered with a NULL storage reference, the by-name address lookup
returns NULL while the by-name index lookup returns 0, not -1 — so the
address lookup does not return NULL exactly when the index lookup
returns -1. -/
theorem C10_counterexample_null_storage :
    hg_prof_get_pvar_addr_from_name (registerAll [nullAddrArgs]) "x" = none ∧
    hg_prof_get_pvar_index_from_name (registerAll [nullAddrArgs]) "x" = 0 ∧
    (0 : Int) ≠ -1 := by
  refine ⟨rfl, rfl, by decide⟩

/-- C10 (amended): for every name `n`, if the by-name index lookup
returns -1 then the by-name address lookup returns NULL, and if the
index lookup returns index `i` then the address lookup returns exactly
the storage reference stored in the descriptor at index `i` — which is
NULL precisely when a NULL storage reference was registered there; the
index lookup always returns either `-1` or a natural index. -/
theorem C10_addr_agrees_with_index (rs : List RegArgs) (n : String) :
    (hg_prof_get_pvar_index_from_name (registerAll rs) n = -1 →
      hg_prof_get_pvar_addr_from_name (registerAll rs) n = none) ∧
    (∀ i : Nat,
      hg_prof_get_pvar_index_from_name (registerAll rs) n = (i : Int) →
        ∃ v, hg_prof_pvar_table_lookup (registerAll rs) i = some v ∧
          hg_prof_get_pvar_addr_from_name (registerAll rs) n = v.addr) ∧
    (hg_prof_get_pvar_index_from_name (registerAll rs) n = -1 ∨
      ∃ i : Nat,
        hg_prof_get_pvar_index_from_name (registerAll rs) n = (i : Int)) := by
  rw [index_from_name_eq_match, addr_from_name_eq_match]
  simp only [lookup_registerAll]
  cases hf : findName n (rs.map mkPvar) with
  | none =>
      dsimp only
      exact ⟨fun _ => rfl, fun i hi => absurd hi (by omega), Or.inl rfl⟩
  | some p =>
      obtain ⟨j, v⟩ := p
      obtain ⟨hget, _, _⟩ := findName_eq_some n (rs.map mkPvar) j v hf
      dsimp only
      refine ⟨?_, ?_, Or.inr ⟨j, rfl⟩⟩
      · intro habs
        exact absurd habs (natCast_ne_neg_one j)
      · intro i hi
        have hj : j = i := by omega
        subst hj
        exact ⟨v, hget, rfl⟩

/-- C10 witness: the amended agreement evaluated at a concrete
one-entry table whose descriptor has a non-NULL storage reference. -/
theorem C10_addr_agrees_with_index_witness :
    ∃ v, hg_prof_pvar_table_lookup (registerAll [sampleArgs1]) 0 = some v ∧
      hg_prof_get_pvar_addr_from_name (registerAll [sampleArgs1]) "alpha" =
        v.addr :=
  (C10_addr_agrees_with_index [sampleArgs1] "alpha").2.1 0 (by decide)

/-- C6: Initialization of the profiling facility populates an initially
empty store with exactly the fixed built-in PVAR catalog (the store it
returns is the one obtained by performing precisely the catalog's
registrations on the empty table, in order) and returns success; the
registered-descriptor count afterwards equals the catalog's size,
twelve. -/
theorem C6_init_registers_builtin_catalog :
    hg_prof_pvar_init = (HG_SUCCESS, registerAll builtinPvarCatalog) ∧
    hg_hash_table_num_entries hg_prof_pvar_init.2 = builtinPvarCatalog.length ∧
    builtinPvarCatalog.length = 12 :=
  ⟨rfl, rfl, rfl⟩

/-- C7: For every index outside `[0, count)` the metadata query fails
with the InvalidIndex error and writes nothing into the caller-supplied
output buffers; for every index inside the range it succeeds and
returns all public metadata fields of the descriptor at that index. -/
theorem C7_get_info_validates_index (rs : List RegArgs) (idx : Int)
    (bufs : InfoBufs) :
    (¬ (0 ≤ idx ∧ idx < (hg_hash_table_num_entries (registerAll rs) : Int)) →
      HG_Prof_pvar_get_info (registerAll rs) idx bufs = (HG_INVALID_ARG, bufs)) ∧
    ((0 ≤ idx ∧ idx < (hg_hash_table_num_entries (registerAll rs) : Int)) →
      ∃ v, hg_prof_pvar_table_lookup (registerAll rs) idx.toNat = some v ∧
        HG_Prof_pvar_get_info (registerAll rs) idx bufs =
          (HG_SUCCESS,
            { name := v.name, name_len := (v.name.length : Int),
              var_class := v.pvar_class, datatype := v.pvar_datatype,
              desc := v.description, desc_len := (v.description.length : Int),
              bind := v.pvar_bind, continuous := v.continuous })) := by
  constructor
  · intro h
    rw [HG_Prof_pvar_get_info, if_neg h]
  · intro h
    have hlt : idx.toNat < rs.length := by
      rw [num_entries_registerAll] at h
      omega
    have hlt2 : idx.toNat < (rs.map mkPvar).length := by simpa using hlt
    refine ⟨(rs.map mkPvar).get ⟨idx.toNat, hlt2⟩, ?_, ?_⟩
    · rw [lookup_registerAll, List.get?_eq_get hlt2]
    · rw [HG_Prof_pvar_get_info, if_pos h, lookup_registerAll,
        List.get?_eq_get hlt2]

/-- C7 witness: the query evaluated on a concrete one-entry table, at
the out-of-range index 5 (buffers untouched, InvalidIndex) and at the
in-range index 0 (success, fields of the registered descriptor). -/
theorem C7_get_info_validates_index_witness :
    HG_Prof_pvar_get_info (registerAll [sampleArgs1]) 5 sampleBufs =
      (HG_INVALID_ARG, sampleBufs) :=
  (C7_get_info_validates_index [sampleArgs1] 5 sampleBufs).1 (by decide)

end MercuryProf
